import Mathlib

/-!
Verification development for the vc-analyst-backend live-session core.

Shallow embedding of the relevant source functions:
- src/utils/speechToText.js: splitPcmIntoChunks, isRetryableError, the
  per-chunk retry loop of transcribeAudioChunkOpenAI, mergeTranscriptionChunks
- src/utils/liveQuestionGenerator.js: normalizeQuestion,
  calculateQuestionSimilarity, isQuestionDuplicate, filterDuplicateQuestions,
  and the rolling question insertion of the live-conversation router
- the live-conversation router (stop route, join-session, audio-chunk,
  disconnect, auto-stop interval, processSessionStop segment persistence)

Buffers are modelled as lists of bytes (List Nat); JS numbers used for
timestamps and durations are modelled as Int (milliseconds) or Rat (seconds).
-/

namespace VCA

/-! ### speechToText.js: PCM chunking -/

/-- WAV header size used by pcmToWav (44-byte RIFF/WAVE header). -/
def wavHeaderSize : Nat := 44

/-- Size of the WAV wrapping produced by pcmToWav: 44 header bytes plus the
PCM data bytes (Buffer.concat of header and pcmBuffer). -/
def wavSize (pcm : List Nat) : Nat := wavHeaderSize + pcm.length

/-- MAX_WAV_SIZE of splitPcmIntoChunks: 20 * 1024 * 1024. -/
def maxWavSize : Nat := 20 * 1024 * 1024

/-- MAX_PCM_SIZE_PER_CHUNK of splitPcmIntoChunks. -/
def maxPcmSizePerChunk : Nat := maxWavSize - wavHeaderSize

/-- MIN_CHUNK_SIZE of splitPcmIntoChunks: about one second of audio,
sampleRate * 2 bytes. -/
def minChunkSize (sampleRate : Nat) : Nat := sampleRate * 2

/-- The while-loop of splitPcmIntoChunks.  offset and chunks are the
loop variables.  The fuel argument only bounds the iteration count so the
recursion is structural; buf.length iterations always suffice because each
iteration either terminates the loop or advances offset by at least one
byte. -/
def splitGo (buf : List Nat) (minC : Nat) : Nat → Nat → List (List Nat) → List (List Nat)
  | fuel, offset, chunks =>
    if offset < buf.length then
      match fuel with
      | 0 => chunks
      | fuel + 1 =>
        let remaining := buf.length - offset
        if remaining < minC ∧ chunks ≠ [] then
          -- merge the trailing residue into the previous chunk
          let lastChunk := chunks.getLastD []
          let chunkSize := remaining + lastChunk.length
          let chunk := (buf.drop (offset - lastChunk.length)).take chunkSize
          if chunk = [] then chunks.dropLast else chunks.dropLast ++ [chunk]
        else
          let chunkSize := if remaining < minC then remaining else min remaining maxPcmSizePerChunk
          let chunk := (buf.drop offset).take chunkSize
          splitGo buf minC fuel (offset + chunkSize)
            (if chunk = [] then chunks else chunks ++ [chunk])
    else chunks

/-- splitPcmIntoChunks: throws on an empty buffer, otherwise runs the
chunking loop. -/
def splitPcmIntoChunks (buf : List Nat) (sampleRate : Nat) :
    Except String (List (List Nat)) :=
  if buf.length = 0 then
    Except.error "Cannot split empty or invalid PCM buffer"
  else
    Except.ok (splitGo buf (minChunkSize sampleRate) buf.length 0 [])

/-- Size-level mirror of splitGo: tracks only the lengths of the produced
chunks.  Matches splitGo chunk for chunk (splitSizesGo_spec). -/
def splitSizesGo (len minC : Nat) : Nat → Nat → List Nat → List Nat
  | fuel, offset, sizes =>
    if offset < len then
      match fuel with
      | 0 => sizes
      | fuel + 1 =>
        let remaining := len - offset
        if remaining < minC ∧ sizes ≠ [] then
          let lastSize := sizes.getLastD 0
          let chunkSize := remaining + lastSize
          let sz := min chunkSize (len - (offset - lastSize))
          if sz = 0 then sizes.dropLast else sizes.dropLast ++ [sz]
        else
          let chunkSize := if remaining < minC then remaining else min remaining maxPcmSizePerChunk
          let sz := min chunkSize (len - offset)
          splitSizesGo len minC fuel (offset + chunkSize)
            (if sz = 0 then sizes else sizes ++ [sz])
    else sizes

/-- Chunk sizes produced by splitPcmIntoChunks on a buffer of length len. -/
def splitSizes (len : Nat) (sampleRate : Nat) : List Nat :=
  splitSizesGo len (minChunkSize sampleRate) len 0 []

theorem splitGo_sizes (buf : List Nat) (minC : Nat) :
    ∀ fuel offset chunks,
      (splitGo buf minC fuel offset chunks).map List.length
        = splitSizesGo buf.length minC fuel offset (chunks.map List.length) := by
  intro fuel
  induction fuel with
  | zero =>
    intro offset chunks
    rw [splitGo, splitSizesGo]
    split <;> rfl
  | succ fuel ih =>
    intro offset chunks
    rw [splitGo, splitSizesGo]
    by_cases hoff : offset < buf.length
    · simp only [if_pos hoff]
      have hlast : (chunks.map List.length).getLastD 0 = (chunks.getLastD []).length := by
        rcases h : chunks.getLast? with _ | c
        · rw [List.getLast?_eq_none_iff] at h
          subst h; rfl
        · have hne : chunks ≠ [] := by
            intro hc; subst hc; simp at h
          rw [List.getLastD_eq_getLast?, List.getLastD_eq_getLast?, h]
          rw [List.getLast?_map]
          simp [h]
      by_cases hmerge : buf.length - offset < minC ∧ chunks ≠ []
      · have hmerge' : buf.length - offset < minC ∧ chunks.map List.length ≠ [] := by
          simpa using hmerge
        simp only [if_pos hmerge, if_pos hmerge']
        have hlen : ((buf.drop (offset - (chunks.getLastD []).length)).take
            (buf.length - offset + (chunks.getLastD []).length)).length
            = min (buf.length - offset + (chunks.getLastD []).length)
                (buf.length - (offset - (chunks.getLastD []).length)) := by
          simp [List.length_take, List.length_drop]
        rw [hlast]
        by_cases hz : min (buf.length - offset + (chunks.getLastD []).length)
            (buf.length - (offset - (chunks.getLastD []).length)) = 0
        · have hcz : (buf.drop (offset - (chunks.getLastD []).length)).take
              (buf.length - offset + (chunks.getLastD []).length) = [] := by
            rw [← List.length_eq_zero, hlen]; exact hz
          simp only [if_pos hcz, if_pos hz]
          exact (List.map_dropLast _ _).symm ▸ (List.map_dropLast _ _)
        · have hcz : ¬((buf.drop (offset - (chunks.getLastD []).length)).take
              (buf.length - offset + (chunks.getLastD []).length) = []) := by
            rw [← List.length_eq_zero, hlen]; exact hz
          simp only [if_neg hcz, if_neg hz]
          rw [List.map_append, List.map_dropLast]
          simp [hlen]
      · have hmerge' : ¬(buf.length - offset < minC ∧ chunks.map List.length ≠ []) := by
          simpa using hmerge
        simp only [if_neg hmerge, if_neg hmerge']
        have hclen : ((buf.drop offset).take
            (if buf.length - offset < minC then buf.length - offset
             else min (buf.length - offset) maxPcmSizePerChunk)).length
            = min (if buf.length - offset < minC then buf.length - offset
                   else min (buf.length - offset) maxPcmSizePerChunk) (buf.length - offset) := by
          simp [List.length_take, List.length_drop]
        by_cases hz : min (if buf.length - offset < minC then buf.length - offset
            else min (buf.length - offset) maxPcmSizePerChunk) (buf.length - offset) = 0
        · have hcz : (buf.drop offset).take
              (if buf.length - offset < minC then buf.length - offset
               else min (buf.length - offset) maxPcmSizePerChunk) = [] := by
            rw [← List.length_eq_zero, hclen]; exact hz
          simp only [if_pos hcz, if_pos hz]
          exact ih _ _
        · have hcz : ¬((buf.drop offset).take
              (if buf.length - offset < minC then buf.length - offset
               else min (buf.length - offset) maxPcmSizePerChunk) = []) := by
            rw [← List.length_eq_zero, hclen]; exact hz
          simp only [if_neg hcz, if_neg hz]
          rw [ih]
          congr 1
          rw [List.map_append]
          simp [hclen]
    · simp only [if_neg hoff]

theorem maxPcmSizePerChunk_pos : 0 < maxPcmSizePerChunk := by
  norm_num [maxPcmSizePerChunk, maxWavSize, wavHeaderSize]

theorem splitGo_join (buf : List Nat) (minC : Nat) :
    ∀ fuel offset chunks,
      buf.length - offset ≤ fuel →
      chunks.flatten = buf.take offset →
      (splitGo buf minC fuel offset chunks).flatten = buf := by
  intro fuel
  induction fuel with
  | zero =>
    intro offset chunks hfuel hjoin
    rw [splitGo]
    have hoff : ¬ offset < buf.length := by omega
    simp only [if_neg hoff]
    rw [hjoin, List.take_of_length_le (by omega)]
  | succ fuel ih =>
    intro offset chunks hfuel hjoin
    rw [splitGo]
    by_cases hoff : offset < buf.length
    · simp only [if_pos hoff]
      by_cases hmerge : buf.length - offset < minC ∧ chunks ≠ []
      · simp only [if_pos hmerge]
        obtain ⟨hrem, hne⟩ := hmerge
        rcases List.eq_nil_or_concat chunks with rfl | ⟨init, lst, rfl⟩
        · exact absurd rfl hne
        simp only [List.concat_eq_append] at hjoin hne ⊢
        simp only [List.getLastD_concat, List.dropLast_concat]
        have hjoin2 : init.flatten ++ lst = buf.take offset := by
          simpa using hjoin
        have hlens : init.flatten.length + lst.length = offset := by
          have := congrArg List.length hjoin2
          simpa [Nat.min_eq_left (Nat.le_of_lt hoff)] using this
        have hdjoin : init.flatten = buf.take (offset - lst.length) := by
          have h1 : (init.flatten ++ lst).take init.flatten.length
              = init.flatten := List.take_left _ _
          rw [hjoin2] at h1
          rw [← h1, List.take_take]
          congr 1
          omega
        have hchunk : (buf.drop (offset - lst.length)).take
            (buf.length - offset + lst.length) = buf.drop (offset - lst.length) := by
          apply List.take_of_length_le
          rw [List.length_drop]
          omega
        have hcne : (buf.drop (offset - lst.length)).take
            (buf.length - offset + lst.length) ≠ [] := by
          apply List.ne_nil_of_length_pos
          rw [List.length_take, List.length_drop]
          omega
        simp only [if_neg hcne]
        rw [List.flatten_append, hdjoin, hchunk]
        simp [List.take_append_drop]
      · simp only [if_neg hmerge]
        have hcs : 1 ≤ (if buf.length - offset < minC then buf.length - offset
            else min (buf.length - offset) maxPcmSizePerChunk) := by
          have := maxPcmSizePerChunk_pos
          split <;> omega
        set cs := (if buf.length - offset < minC then buf.length - offset
            else min (buf.length - offset) maxPcmSizePerChunk) with hcsdef
        have hcsle : cs ≤ buf.length - offset := by
          rw [hcsdef]; split <;> omega
        have hcne : (buf.drop offset).take cs ≠ [] := by
          apply List.ne_nil_of_length_pos
          rw [List.length_take, List.length_drop]
          omega
        simp only [if_neg hcne]
        apply ih
        · omega
        · rw [List.flatten_append, hjoin]
          simp only [List.flatten_cons, List.flatten_nil, List.append_nil]
          rw [← List.take_add]
    · simp only [if_neg hoff]
      rw [hjoin, List.take_of_length_le (by omega)]

theorem splitSizesGo_bounds (len minC : Nat) (hminC : 1 ≤ minC)
    (hmpc : minC ≤ maxPcmSizePerChunk) (hlen : minC ≤ len) :
    ∀ fuel offset sizes,
      len - offset ≤ fuel →
      sizes.sum = offset →
      (sizes = [] → offset = 0) →
      (∀ s ∈ sizes, minC ≤ s ∧ s ≤ maxPcmSizePerChunk) →
      ∀ s ∈ splitSizesGo len minC fuel offset sizes,
        minC ≤ s ∧ s ≤ maxPcmSizePerChunk + (minC - 1) := by
  intro fuel
  induction fuel with
  | zero =>
    intro offset sizes hfuel hsum hinit hbnd s hs
    rw [splitSizesGo] at hs
    have hoff : ¬ offset < len := by omega
    simp only [if_neg hoff] at hs
    have := hbnd s hs
    omega
  | succ fuel ih =>
    intro offset sizes hfuel hsum hinit hbnd s hs
    rw [splitSizesGo] at hs
    by_cases hoff : offset < len
    · simp only [if_pos hoff] at hs
      by_cases hmerge : len - offset < minC ∧ sizes ≠ []
      · simp only [if_pos hmerge] at hs
        obtain ⟨hrem, hne⟩ := hmerge
        rcases List.eq_nil_or_concat sizes with rfl | ⟨init, lst, rfl⟩
        · exact absurd rfl hne
        simp only [List.concat_eq_append] at hs hsum hbnd
        simp only [List.getLastD_concat, List.dropLast_concat] at hs
        have hlbnd := hbnd lst (by simp)
        have hsum' : init.sum + lst = offset := by
          simpa using hsum
        have hszval : min (len - offset + lst) (len - (offset - lst))
            = len - offset + lst := by
          omega
        rw [hszval] at hs
        have hszne : ¬(len - offset + lst = 0) := by omega
        simp only [if_neg hszne] at hs
        rcases List.mem_append.mp hs with hs' | hs'
        · have := hbnd s (List.mem_append.mpr (Or.inl hs'))
          omega
        · have : s = len - offset + lst := by simpa using hs'
          omega
      · simp only [if_neg hmerge] at hs
        have hrge : minC ≤ len - offset := by
          by_cases hsz : sizes = []
          · have := hinit hsz
            omega
          · rcases Nat.lt_or_ge (len - offset) minC with hlt | hge
            · exact absurd ⟨hlt, hsz⟩ hmerge
            · exact hge
        have hite : (if len - offset < minC then len - offset
            else min (len - offset) maxPcmSizePerChunk) = min (len - offset) maxPcmSizePerChunk := by
          rw [if_neg (by omega)]
        rw [hite] at hs
        have hszv : min (min (len - offset) maxPcmSizePerChunk) (len - offset)
            = min (len - offset) maxPcmSizePerChunk := by omega
        rw [hszv] at hs
        have hszne : ¬(min (len - offset) maxPcmSizePerChunk = 0) := by omega
        simp only [if_neg hszne] at hs
        refine ih _ _ ?_ ?_ ?_ ?_ s hs
        · omega
        · rw [List.sum_append]; simp [hsum]
        · intro hx; simp at hx
        · intro t ht
          rcases List.mem_append.mp ht with ht' | ht'
          · exact hbnd t ht'
          · have : t = min (len - offset) maxPcmSizePerChunk := by simpa using ht'
            constructor <;> omega
    · simp only [if_neg hoff] at hs
      have := hbnd s hs
      omega

/-- C10: for every non-empty PCM buffer, the concatenation of the chunks
returned by splitPcmIntoChunks, in order, equals the input buffer exactly —
no bytes are lost, duplicated, or reordered, including when the trailing
residue is merged into the previous chunk. -/
theorem claim_C10_split_concat (buf : List Nat) (sampleRate : Nat) (h : buf ≠ []) :
    ∃ cs, splitPcmIntoChunks buf sampleRate = Except.ok cs ∧ cs.flatten = buf := by
  refine ⟨splitGo buf (minChunkSize sampleRate) buf.length 0 [], ?_, ?_⟩
  · rw [splitPcmIntoChunks, if_neg]
    simpa [List.length_eq_zero] using h
  · exact splitGo_join buf _ buf.length 0 [] (by omega) (by simp)

theorem claim_C10_split_concat_witness :
    ([1, 2, 3] : List Nat) ≠ [] ∧
      ∃ cs, splitPcmIntoChunks [1, 2, 3] 16000 = Except.ok cs ∧ cs.flatten = [1, 2, 3] :=
  ⟨by decide, claim_C10_split_concat [1, 2, 3] 16000 (by decide)⟩

/-- C4 (amended): for every PCM buffer whose WAV wrapping exceeds 25 MiB,
splitPcmIntoChunks produces chunks that are each at least 1 second of audio
(trailing residue smaller than 1 s is merged into the previous chunk), and
each chunk, when wrapped as a 44-byte-header WAV, is at most 20 MiB plus one
second of audio minus one byte (21003519 bytes) — a final merged chunk may
exceed 20 MiB by up to 31999 bytes, but every chunk stays far below the
25 MiB provider cap. -/
theorem claim_C4_chunk_bounds (buf : List Nat) (h : 26214356 < buf.length) :
    ∃ cs, splitPcmIntoChunks buf 16000 = Except.ok cs ∧
      ∀ c ∈ cs, minChunkSize 16000 ≤ c.length ∧
        wavSize c ≤ maxWavSize + (minChunkSize 16000 - 1) ∧
        wavSize c < 25 * 1024 * 1024 := by
  refine ⟨splitGo buf (minChunkSize 16000) buf.length 0 [], ?_, ?_⟩
  · rw [splitPcmIntoChunks, if_neg]
    omega
  · intro c hc
    have hmem : c.length ∈ (splitGo buf (minChunkSize 16000) buf.length 0 []).map List.length :=
      List.mem_map_of_mem _ hc
    rw [splitGo_sizes] at hmem
    have hbnd := splitSizesGo_bounds buf.length (minChunkSize 16000)
      (by norm_num [minChunkSize])
      (by norm_num [minChunkSize, maxPcmSizePerChunk, maxWavSize, wavHeaderSize])
      (by simp only [minChunkSize]; omega)
      buf.length 0 [] (by omega) (by simp) (by simp) (by simp)
      c.length (by simpa using hmem)
    refine ⟨hbnd.1, ?_, ?_⟩ <;>
      simp only [wavSize, wavHeaderSize, maxWavSize, minChunkSize, maxPcmSizePerChunk] at hbnd ⊢ <;>
      omega

theorem claim_C4_chunk_bounds_witness :
    26214356 < (List.replicate 26214400 0 : List Nat).length ∧
      ∃ cs, splitPcmIntoChunks (List.replicate 26214400 0) 16000 = Except.ok cs ∧
        ∀ c ∈ cs, minChunkSize 16000 ≤ c.length ∧
          wavSize c ≤ maxWavSize + (minChunkSize 16000 - 1) ∧
          wavSize c < 25 * 1024 * 1024 :=
  ⟨by rw [List.length_replicate]; omega, claim_C4_chunk_bounds (List.replicate 26214400 0)
    (by rw [List.length_replicate]; omega)⟩

/-- C4 counterexample: a PCM buffer of 41942953 bytes (WAV wrapping about
40 MiB, well over 25 MiB) is split so that its final merged chunk is
20971477 bytes of PCM, whose 44-byte-header WAV wrapping is 20971521 bytes —
one byte over the claimed 20 MiB bound. -/
theorem claim_C4_counterexample :
    26214356 < (List.replicate 41942953 0 : List Nat).length ∧
      ∃ cs, splitPcmIntoChunks (List.replicate 41942953 0) 16000 = Except.ok cs ∧
        ¬ (∀ c ∈ cs, wavSize c ≤ maxWavSize) := by
  refine ⟨by rw [List.length_replicate]; omega,
    splitGo (List.replicate 41942953 0) (minChunkSize 16000) 41942953 0 [], ?_, ?_⟩
  · rw [splitPcmIntoChunks, if_neg (by rw [List.length_replicate]; omega)]
    rw [List.length_replicate]
  · intro hall
    have hmap : (splitGo (List.replicate 41942953 (0 : Nat)) (minChunkSize 16000)
        41942953 0 []).map List.length = [20971476, 20971477] := by
      have := splitGo_sizes (List.replicate 41942953 (0 : Nat)) (minChunkSize 16000)
        41942953 0 []
      simp only [List.length_replicate, List.map_nil] at this
      rw [this]
      decide
    have hmem : (20971477 : Nat) ∈ (splitGo (List.replicate 41942953 (0 : Nat))
        (minChunkSize 16000) 41942953 0 []).map List.length := by
      rw [hmap]; simp
    obtain ⟨c, hc, hclen⟩ := List.mem_map.mp hmem
    have := hall c hc
    rw [wavSize, hclen] at this
    norm_num [wavHeaderSize, maxWavSize] at this

/-! ### speechToText.js: chunk stitching (mergeTranscriptionChunks) -/

/-- One transcription segment: start and end offsets in seconds (JS numbers
modelled as Rat), text, and the provider's speaker label.  The JS field
named end is called endTime here. -/
structure Segment where
  start : ℚ
  endTime : ℚ
  text : String
  speaker : Option String
deriving DecidableEq

/-- A per-chunk transcription result with the fields mergeTranscriptionChunks
reads: text, language, duration, segments (None models a missing/non-array
segments field). -/
structure ChunkResult where
  text : String
  language : Option String
  duration : Option ℚ
  segments : Option (List Segment)
deriving DecidableEq

/-- Index-aligned pairing of chunkResults[i] with pcmChunks[i]; a missing
pcmChunks[i] (out of range) is None, matching the JS falsy check. -/
def zipPad : List ChunkResult → List (List Nat) → List (ChunkResult × Option (List Nat))
  | [], _ => []
  | r :: rs, [] => (r, none) :: zipPad rs []
  | r :: rs, p :: ps => (r, some p) :: zipPad rs ps

/-- chunkDuration of mergeTranscriptionChunks: the PCM byte count divided by
bytesPerSecond when pcmChunks[i] is present, else the provider-reported
duration (0 if absent). -/
def chunkDur (bps : ℚ) (p : ChunkResult × Option (List Nat)) : ℚ :=
  match p.2 with
  | some pcm => (pcm.length : ℚ) / bps
  | none => p.1.duration.getD 0

/-- Timestamp shift applied to a segment when stitching chunks. -/
def shiftSeg (cum : ℚ) (s : Segment) : Segment :=
  { s with start := s.start + cum, endTime := s.endTime + cum }

/-- The main for-loop of mergeTranscriptionChunks: accumulates the merged
segments and the cumulative offset.  Present segments are shifted by the
cumulative offset; a chunk without segments but with non-empty text becomes
a single fallback segment spanning its own duration. -/
def mergeLoop (bps : ℚ) : List (ChunkResult × Option (List Nat)) → ℚ → List Segment × ℚ
  | [], cum => ([], cum)
  | p :: rest, cum =>
    let dur := chunkDur bps p
    let segs :=
      match p.1.segments with
      | some ss => ss.map (shiftSeg cum)
      | none => if p.1.text ≠ "" then [⟨cum, cum + dur, p.1.text, none⟩] else []
    let r := mergeLoop bps rest (cum + dur)
    (segs ++ r.1, r.2)

/-- mergeTranscriptionChunks: null on an empty list, the sole result
unchanged for a single chunk, otherwise the stitched result with
PCM-byte-count derived duration. -/
def mergeTranscriptionChunks (chunkResults : List ChunkResult)
    (pcmChunks : List (List Nat)) (sampleRate : ℚ) : Option ChunkResult :=
  match chunkResults with
  | [] => none
  | [r] => some r
  | r1 :: rest =>
    let bytesPerSecond := sampleRate * 2
    let res := mergeLoop bytesPerSecond (zipPad (r1 :: rest) pcmChunks) 0
    some
      { text := (" ".intercalate ((r1 :: rest).map (fun r => r.text))).trim
        language := r1.language
        duration := some res.2
        segments := some res.1 }

theorem mergeLoop_total (bps : ℚ) :
    ∀ (rs : List ChunkResult) (ps : List (List Nat)) (cum : ℚ),
      rs.length = ps.length →
      (mergeLoop bps (zipPad rs ps) cum).2
        = cum + (ps.map (fun c => (c.length : ℚ) / bps)).sum := by
  intro rs
  induction rs with
  | nil =>
    intro ps cum hlen
    have : ps = [] := by
      cases ps with
      | nil => rfl
      | cons p ps => simp at hlen
    subst this
    simp [zipPad, mergeLoop]
  | cons r rs ih =>
    intro ps cum hlen
    cases ps with
    | nil => simp at hlen
    | cons p ps =>
      rw [zipPad, mergeLoop]
      simp only [List.map_cons, List.sum_cons]
      rw [ih ps _ (by simpa using hlen)]
      simp [chunkDur]
      ring

theorem mergeLoop_mem (bps : ℚ) :
    ∀ (rs : List ChunkResult) (ps : List (List Nat)) (cum : ℚ)
      (i : Nat) (hi : i < rs.length),
      rs.length = ps.length →
      ∀ s ∈ ((rs.get ⟨i, hi⟩).segments.getD []),
        shiftSeg (cum + ((ps.take i).map (fun c => (c.length : ℚ) / bps)).sum) s
          ∈ (mergeLoop bps (zipPad rs ps) cum).1 := by
  intro rs
  induction rs with
  | nil =>
    intro ps cum i hi
    simp at hi
  | cons r rs ih =>
    intro ps cum i hi hlen s hs
    cases ps with
    | nil => simp at hlen
    | cons p ps =>
      rw [zipPad, mergeLoop]
      cases i with
      | zero =>
        simp only [List.get] at hs
        rcases hseg : r.segments with _ | ss
        · rw [hseg] at hs
          simp at hs
        · rw [hseg] at hs
          simp only [Option.getD_some] at hs
          apply List.mem_append.mpr
          left
          simp only [hseg]
          simpa using List.mem_map_of_mem (shiftSeg cum) hs
      | succ i =>
        simp only [List.get] at hs
        apply List.mem_append.mpr
        right
        have hlen' : rs.length = ps.length := by simpa using hlen
        have := ih ps (cum + chunkDur bps (r, some p)) i (by simpa using hi) hlen' s hs
        have harith : cum + chunkDur bps (r, some p)
            + ((ps.take i).map (fun c => (c.length : ℚ) / bps)).sum
            = cum + (((p :: ps).take (i + 1)).map (fun c => (c.length : ℚ) / bps)).sum := by
          simp [chunkDur]
          ring
        rw [harith] at this
        exact this

/-- C5: for every full-audio transcript stitched from K >= 2 chunks (with a
PCM chunk for every result, as transcribeCompleteAudioOpenAI guarantees),
the returned duration equals the sum over chunks of
pcmChunk.length / (sampleRate * 2) computed from the PCM byte counts, and
each chunk's segment start and end timestamps are shifted by the cumulative
PCM-derived duration of all prior chunks. -/
theorem claim_C5_stitching (results : List ChunkResult) (pcms : List (List Nat))
    (sampleRate : ℚ) (h2 : 2 ≤ results.length) (hlen : results.length = pcms.length) :
    ∃ m, mergeTranscriptionChunks results pcms sampleRate = some m ∧
      m.duration = some ((pcms.map (fun c => (c.length : ℚ) / (sampleRate * 2))).sum) ∧
      ∀ (i : Nat) (hi : i < results.length),
        ∀ s ∈ ((results.get ⟨i, hi⟩).segments.getD []),
          { s with
              start := s.start
                + ((pcms.take i).map (fun c => (c.length : ℚ) / (sampleRate * 2))).sum,
              endTime := s.endTime
                + ((pcms.take i).map (fun c => (c.length : ℚ) / (sampleRate * 2))).sum }
            ∈ (m.segments.getD []) := by
  match results, h2 with
  | r1 :: r2 :: rest, _ =>
    refine ⟨_, rfl, ?_, ?_⟩
    · simp only [Option.some.injEq]
      rw [mergeLoop_total _ _ _ _ hlen, zero_add]
    · intro i hi s hs
      simp only [Option.getD_some]
      have := mergeLoop_mem (sampleRate * 2) (r1 :: r2 :: rest) pcms 0 i hi hlen s hs
      rw [shiftSeg] at this
      simpa [add_comm] using this

theorem claim_C5_stitching_witness :
    2 ≤ ([⟨"hello", some "en", none, some [⟨0, 1, "hello", none⟩]⟩,
          ⟨"world", none, some 5, none⟩] : List ChunkResult).length ∧
      ∃ m, mergeTranscriptionChunks
          [⟨"hello", some "en", none, some [⟨0, 1, "hello", none⟩]⟩,
           ⟨"world", none, some 5, none⟩] [[1, 2], [3, 4, 5]] 16000 = some m ∧
        m.duration = some (([[1, 2], [3, 4, 5]].map
          (fun c => ((c : List Nat).length : ℚ) / (16000 * 2))).sum) ∧
        ∀ (i : Nat) (hi : i < ([⟨"hello", some "en", none, some [⟨0, 1, "hello", none⟩]⟩,
            ⟨"world", none, some 5, none⟩] : List ChunkResult).length),
          ∀ s ∈ ((([⟨"hello", some "en", none, some [⟨0, 1, "hello", none⟩]⟩,
              ⟨"world", none, some 5, none⟩] : List ChunkResult).get ⟨i, hi⟩).segments.getD []),
            { s with
                start := s.start + (([[1, 2], [3, 4, 5]].take i).map
                  (fun c => ((c : List Nat).length : ℚ) / (16000 * 2))).sum,
                endTime := s.endTime + (([[1, 2], [3, 4, 5]].take i).map
                  (fun c => ((c : List Nat).length : ℚ) / (16000 * 2))).sum }
              ∈ (m.segments.getD []) :=
  ⟨by decide, claim_C5_stitching _ _ 16000 (by decide) (by decide)⟩

/-! ### speechToText.js: retry logic (isRetryableError and the per-chunk
retry loop of transcribeAudioChunkOpenAI) -/

/-- A provider error as isRetryableError inspects it: error.status, and
error.error.message (None when the nested field is absent). -/
structure JsError where
  status : Option Nat
  errMessage : Option String
deriving DecidableEq

/-- Whether pat occurs as a contiguous substring of s (String.includes). -/
def subStrOccurs (pat : List Char) : List Char → Bool
  | [] => pat.isEmpty
  | c :: rest => pat.isPrefixOf (c :: rest) || subStrOccurs pat rest

/-- The lowercased-message check of isRetryableError for 400 errors:
the message contains one of the four known-transient substrings. -/
def isTransient400Message (m : String) : Bool :=
  let msg := m.data.map Char.toLower
  subStrOccurs "something went wrong".data msg ||
    subStrOccurs "reading your request".data msg ||
    subStrOccurs "timeout".data msg ||
    subStrOccurs "temporary".data msg

/-- isRetryableError: no/falsy status is not retryable; retryableStatuses =
[500, 502, 503, 504, 429]; a 400 with a known-transient message is
retryable; everything else is not. -/
def isRetryableError (e : JsError) : Bool :=
  match e.status with
  | none => false
  | some s =>
    if [500, 502, 503, 504, 429].contains s then true
    else if s = 400 then
      match e.errMessage with
      | some m => isTransient400Message m
      | none => false
    else false

/-- The backoff delay computed before retry number attempt+1:
Math.min(1000 * 2^attempt, 10000) milliseconds. -/
def retryDelayMs (attempt : Nat) : Nat := min (1000 * 2 ^ attempt) 10000

/-- The attempt loop of transcribeAudioChunkOpenAI.  call models one
provider invocation per attempt index.  Returns the final outcome, the
number of attempts performed, and the list of backoff delays slept.
remaining = maxRetries - attempt mirrors the loop condition
attempt < maxRetries. -/
def retryGo (call : Nat → Except JsError R) : Nat → Nat → Except JsError R × Nat × List Nat
  | attempt, 0 =>
    match call attempt with
    | Except.ok r => (Except.ok r, attempt + 1, [])
    | Except.error e => (Except.error e, attempt + 1, [])
  | attempt, remaining + 1 =>
    match call attempt with
    | Except.ok r => (Except.ok r, attempt + 1, [])
    | Except.error e =>
      if isRetryableError e then
        let r := retryGo call (attempt + 1) remaining
        (r.1, r.2.1, retryDelayMs attempt :: r.2.2)
      else (Except.error e, attempt + 1, [])

/-- The retrying wrapper of transcribeAudioChunkOpenAI with its maxRetries
parameter (default 3 at every call site). -/
def transcribeAttempts (call : Nat → Except JsError R) (maxRetries : Nat) :
    Except JsError R × Nat × List Nat :=
  retryGo call 0 maxRetries

/-- Modelled from the spec: the retryability predicate exactly as claim C6
words it — a server 5xx status, a 429 status, or a known-transient 4xx
whose message contains one of the four substrings. -/
def specC6Retryable (e : JsError) : Bool :=
  match e.status with
  | none => false
  | some s =>
    decide (500 ≤ s ∧ s ≤ 599) || s == 429 ||
      (decide (400 ≤ s ∧ s ≤ 499) &&
        match e.errMessage with
        | some m => isTransient400Message m
        | none => false)

theorem retryGo_spec {R : Type} (call : Nat → Except JsError R) :
    ∀ (remaining attempt : Nat),
      attempt + 1 ≤ (retryGo call attempt remaining).2.1 ∧
      (retryGo call attempt remaining).2.1 ≤ attempt + remaining + 1 ∧
      (retryGo call attempt remaining).2.2
        = (List.range ((retryGo call attempt remaining).2.1 - attempt - 1)).map
            (fun k => retryDelayMs (attempt + k)) ∧
      (∀ k, attempt ≤ k → k < (retryGo call attempt remaining).2.1 - 1 →
        ∃ e, call k = Except.error e ∧ isRetryableError e = true) ∧
      (∀ e, (retryGo call attempt remaining).1 = Except.error e →
        call ((retryGo call attempt remaining).2.1 - 1) = Except.error e ∧
          (isRetryableError e = false ∨
            (retryGo call attempt remaining).2.1 = attempt + remaining + 1)) ∧
      (∀ r, (retryGo call attempt remaining).1 = Except.ok r →
        call ((retryGo call attempt remaining).2.1 - 1) = Except.ok r) := by
  intro remaining
  induction remaining with
  | zero =>
    intro attempt
    rcases hcall : call attempt with e | r
    · have hres : retryGo call attempt 0 = (Except.error e, attempt + 1, []) := by
        rw [retryGo]; simp only [hcall]
      refine ⟨?_, ?_, ?_, ?_, ?_, ?_⟩
      · rw [hres]
      · rw [hres]
      · rw [hres]
        have h0 : attempt + 1 - attempt - 1 = 0 := by omega
        show ([] : List Nat) = (List.range (attempt + 1 - attempt - 1)).map
          (fun k => retryDelayMs (attempt + k))
        rw [h0]
        rfl
      · intro k hk1 hk2
        rw [hres] at hk2
        have hk2' : k < attempt + 1 - 1 := hk2
        omega
      · intro e' he'
        rw [hres] at he' ⊢
        have : e' = e := by simpa using he'.symm
        subst this
        exact ⟨by simpa using hcall, Or.inr rfl⟩
      · intro r' hr'
        rw [hres] at hr'
        simp at hr'
    · have hres : retryGo call attempt 0 = (Except.ok r, attempt + 1, []) := by
        rw [retryGo]; simp only [hcall]
      refine ⟨?_, ?_, ?_, ?_, ?_, ?_⟩
      · rw [hres]
      · rw [hres]
      · rw [hres]
        have h0 : attempt + 1 - attempt - 1 = 0 := by omega
        show ([] : List Nat) = (List.range (attempt + 1 - attempt - 1)).map
          (fun k => retryDelayMs (attempt + k))
        rw [h0]
        rfl
      · intro k hk1 hk2
        rw [hres] at hk2
        have hk2' : k < attempt + 1 - 1 := hk2
        omega
      · intro e' he'
        rw [hres] at he'
        simp at he'
      · intro r' hr'
        rw [hres] at hr' ⊢
        have : r' = r := by simpa using hr'.symm
        subst this
        simpa using hcall
  | succ remaining ih =>
    intro attempt
    rcases hcall : call attempt with e | r
    · by_cases hretry : isRetryableError e = true
      · have hres : retryGo call attempt (remaining + 1)
            = ((retryGo call (attempt + 1) remaining).1,
               (retryGo call (attempt + 1) remaining).2.1,
               retryDelayMs attempt :: (retryGo call (attempt + 1) remaining).2.2) := by
          rw [retryGo]; simp only [hcall, if_pos hretry]
        obtain ⟨h1, h2, h3, h4, h5, h6⟩ := ih (attempt + 1)
        refine ⟨?_, ?_, ?_, ?_, ?_, ?_⟩
        · rw [hres]
          show attempt + 1 ≤ (retryGo call (attempt + 1) remaining).2.1
          omega
        · rw [hres]
          show (retryGo call (attempt + 1) remaining).2.1 ≤ attempt + (remaining + 1) + 1
          omega
        · rw [hres]
          show retryDelayMs attempt :: (retryGo call (attempt + 1) remaining).2.2
              = (List.range ((retryGo call (attempt + 1) remaining).2.1 - attempt - 1)).map
                  (fun k => retryDelayMs (attempt + k))
          have hlen : (retryGo call (attempt + 1) remaining).2.1 - attempt - 1
              = ((retryGo call (attempt + 1) remaining).2.1 - (attempt + 1) - 1) + 1 := by
            omega
          rw [hlen, List.range_succ_eq_map, List.map_cons, List.map_map]
          have hhead : retryDelayMs (attempt + 0) = retryDelayMs attempt := by
            norm_num
          have htail : (retryGo call (attempt + 1) remaining).2.2
              = List.map ((fun k => retryDelayMs (attempt + k)) ∘ Nat.succ)
                  (List.range ((retryGo call (attempt + 1) remaining).2.1 - (attempt + 1) - 1)) := by
            rw [h3]
            apply List.map_congr_left
            intro k _
            simp only [Function.comp_apply]
            congr 1
            omega
          rw [hhead, ← htail]
        · intro k hk1 hk2
          rw [hres] at hk2
          have hk2' : k < (retryGo call (attempt + 1) remaining).2.1 - 1 := hk2
          rcases Nat.eq_or_lt_of_le hk1 with rfl | hk1'
          · exact ⟨e, hcall, hretry⟩
          · exact h4 k (by omega) (by omega)
        · intro e' he'
          rw [hres] at he' ⊢
          have he2 : (retryGo call (attempt + 1) remaining).1 = Except.error e' := he'
          obtain ⟨ha, hb⟩ := h5 e' he2
          refine ⟨ha, ?_⟩
          rcases hb with hb | hb
          · exact Or.inl hb
          · refine Or.inr ?_
            show (retryGo call (attempt + 1) remaining).2.1 = attempt + (remaining + 1) + 1
            omega
        · intro r' hr'
          rw [hres] at hr' ⊢
          have hr2 : (retryGo call (attempt + 1) remaining).1 = Except.ok r' := hr'
          exact h6 r' hr2
      · have hres : retryGo call attempt (remaining + 1) = (Except.error e, attempt + 1, []) := by
          rw [retryGo]; simp only [hcall, if_neg hretry]
        refine ⟨?_, ?_, ?_, ?_, ?_, ?_⟩
        · rw [hres]
        · rw [hres]
          show attempt + 1 ≤ attempt + (remaining + 1) + 1
          omega
        · rw [hres]
          have h0 : attempt + 1 - attempt - 1 = 0 := by omega
          show ([] : List Nat) = (List.range (attempt + 1 - attempt - 1)).map
            (fun k => retryDelayMs (attempt + k))
          rw [h0]
          rfl
        · intro k hk1 hk2
          rw [hres] at hk2
          have hk2' : k < attempt + 1 - 1 := hk2
          omega
        · intro e' he'
          rw [hres] at he' ⊢
          have : e' = e := by simpa using he'.symm
          subst this
          refine ⟨by simpa using hcall, Or.inl ?_⟩
          simpa using hretry
        · intro r' hr'
          rw [hres] at hr'
          simp at hr'
    · have hres : retryGo call attempt (remaining + 1) = (Except.ok r, attempt + 1, []) := by
        rw [retryGo]; simp only [hcall]
      refine ⟨?_, ?_, ?_, ?_, ?_, ?_⟩
      · rw [hres]
      · rw [hres]
        show attempt + 1 ≤ attempt + (remaining + 1) + 1
        omega
      · rw [hres]
        have h0 : attempt + 1 - attempt - 1 = 0 := by omega
        show ([] : List Nat) = (List.range (attempt + 1 - attempt - 1)).map
          (fun k => retryDelayMs (attempt + k))
        rw [h0]
        rfl
      · intro k hk1 hk2
        rw [hres] at hk2
        have hk2' : k < attempt + 1 - 1 := hk2
        omega
      · intro e' he'
        rw [hres] at he'
        simp at he'
      · intro r' hr'
        rw [hres] at hr' ⊢
        have : r' = r := by simpa using hr'.symm
        subst this
        simpa using hcall

/-- C6 (amended): per-chunk transcription performs at most 3 retries (at
most 4 attempts); every retry happens on an error that isRetryableError
accepts and is preceded by an exponential backoff delay of
min(1000 * 2^k, 10000) ms (1 s, 2 s, 4 s); a returned error was either not
retryable (rethrown immediately) or the retry budget was exhausted; and an
error is retryable precisely when its status is 500, 502, 503, 504 or 429,
or its status is 400 and its error message contains one of the
known-transient substrings — in particular other 5xx statuses such as 501
and non-400 4xx statuses are not retried. -/
theorem claim_C6_retry_amended {R : Type} (call : Nat → Except JsError R) :
    (transcribeAttempts call 3).2.1 ≤ 4 ∧
    (transcribeAttempts call 3).2.2
      = (List.range ((transcribeAttempts call 3).2.1 - 1)).map
          (fun k => min (1000 * 2 ^ k) 10000) ∧
    (∀ k, k < (transcribeAttempts call 3).2.1 - 1 →
      ∃ e, call k = Except.error e ∧ isRetryableError e = true) ∧
    (∀ e, (transcribeAttempts call 3).1 = Except.error e →
      (isRetryableError e = false ∨ (transcribeAttempts call 3).2.1 = 4)) ∧
    (∀ e : JsError, isRetryableError e = true ↔
      (e.status = some 500 ∨ e.status = some 502 ∨ e.status = some 503 ∨
        e.status = some 504 ∨ e.status = some 429 ∨
        (e.status = some 400 ∧ ∃ m, e.errMessage = some m ∧ isTransient400Message m = true))) := by
  obtain ⟨h1, h2, h3, h4, h5, h6⟩ := retryGo_spec call 3 0
  refine ⟨by simpa [transcribeAttempts] using h2, ?_, ?_, ?_, ?_⟩
  · rw [transcribeAttempts, h3]
    apply List.map_congr_left
    intro k _
    simp [retryDelayMs]
  · intro k hk
    exact h4 k (Nat.zero_le k) (by simpa [transcribeAttempts] using hk)
  · intro e he
    obtain ⟨_, hb⟩ := h5 e (by simpa [transcribeAttempts] using he)
    simpa [transcribeAttempts] using hb
  · intro e
    constructor
    · intro h
      rcases e with ⟨st, msg⟩
      rcases st with _ | s
      · simp [isRetryableError] at h
      · rw [isRetryableError.eq_def] at h
        dsimp only [] at h
        split at h
        · next hcont =>
          have hmem : s ∈ [500, 502, 503, 504, 429] := List.mem_of_elem_eq_true hcont
          simp only [List.mem_cons, List.mem_singleton] at hmem
          rcases hmem with rfl | rfl | rfl | rfl | rfl | hf
          · exact Or.inl rfl
          · exact Or.inr (Or.inl rfl)
          · exact Or.inr (Or.inr (Or.inl rfl))
          · exact Or.inr (Or.inr (Or.inr (Or.inl rfl)))
          · exact Or.inr (Or.inr (Or.inr (Or.inr (Or.inl rfl))))
          · simp at hf
        · next hcont =>
          split at h
          · next h400 =>
            subst h400
            rcases msg with _ | m
            · simp at h
            · exact Or.inr (Or.inr (Or.inr (Or.inr (Or.inr ⟨rfl, m, rfl, h⟩))))
          · next h400 =>
            simp at h
    · intro h
      rcases e with ⟨st, msg⟩
      rcases h with h | h | h | h | h | ⟨h, m, hm, ht⟩
      · have h' : st = some 500 := h
        subst h'
        rfl
      · have h' : st = some 502 := h
        subst h'
        rfl
      · have h' : st = some 503 := h
        subst h'
        rfl
      · have h' : st = some 504 := h
        subst h'
        rfl
      · have h' : st = some 429 := h
        subst h'
        rfl
      · have h' : st = some 400 := h
        subst h'
        have hm' : msg = some m := hm
        subst hm'
        show isTransient400Message m = true
        exact ht

theorem claim_C6_retry_amended_witness :
    (transcribeAttempts (fun _ => (Except.error ⟨some 500, none⟩ : Except JsError Unit)) 3).2.1 ≤ 4 ∧
      isRetryableError ⟨some 429, none⟩ = true :=
  ⟨(claim_C6_retry_amended (fun _ => (Except.error ⟨some 500, none⟩ : Except JsError Unit))).1,
    ((claim_C6_retry_amended (fun _ => (Except.ok () : Except JsError Unit))).2.2.2.2
      ⟨some 429, none⟩).mpr (Or.inr (Or.inr (Or.inr (Or.inr (Or.inl rfl)))))⟩

/-- C6 counterexample: a 501 error is a server 5xx status, so the claim
says it is retried; isRetryableError rejects it and the retry loop rethrows
it after a single attempt with no backoff. -/
theorem claim_C6_counterexample :
    isRetryableError ⟨some 501, none⟩ = false ∧
      specC6Retryable ⟨some 501, none⟩ = true ∧
      transcribeAttempts (fun _ => (Except.error ⟨some 501, none⟩ : Except JsError Unit)) 3
        = (Except.error ⟨some 501, none⟩, 1, []) := by
  refine ⟨by decide, by decide, ?_⟩
  rfl

/-! ### liveQuestionGenerator.js: normalization, similarity, de-duplication,
and the rolling question insertion of the live-conversation router -/

/-- JS word character class backslash-w: ASCII letters, digits, underscore. -/
def jsWordChar (c : Char) : Bool := c.isAlphanum || c == '_'

/-- Character pipeline of normalizeQuestion: toLowerCase, then punctuation
(anything outside word characters and whitespace) replaced by spaces. -/
def normalizeChars (q : String) : List Char :=
  (q.data.map Char.toLower).map (fun c => if jsWordChar c || c.isWhitespace then c else ' ')

/-- Splitting on whitespace runs, dropping empty pieces (the composite
effect of JS replace-whitespace-runs, trim, and split). -/
def splitWsAux : List Char → List Char → List (List Char)
  | [], acc => if acc.isEmpty then [] else [acc.reverse]
  | c :: cs, acc =>
    if c.isWhitespace then
      if acc.isEmpty then splitWsAux cs [] else acc.reverse :: splitWsAux cs []
    else splitWsAux cs (c :: acc)

/-- The whitespace-separated words of a string. -/
def splitWs (s : String) : List String :=
  (splitWsAux s.data []).map (fun w => String.mk w)

/-- normalizeQuestion: lowercase, punctuation to spaces, whitespace runs
collapsed to single spaces, trimmed. -/
def normalizeQuestion (q : String) : String :=
  " ".intercalate (splitWs (String.mk (normalizeChars q)))

/-- The fixed stop-word set of calculateQuestionSimilarity. -/
def stopWords : List String :=
  ["the", "a", "an", "and", "or", "but", "in", "on", "at", "to", "for", "of", "with",
   "by", "from", "as", "is", "are", "was", "were", "be", "been", "have", "has", "had",
   "do", "does", "did", "will", "would", "should", "could", "can", "may", "might",
   "must", "this", "that", "these", "those", "what", "which", "who", "whom", "whose",
   "where", "when", "why", "how", "if", "then", "than", "so", "about", "into", "onto",
   "upon", "over", "under", "above", "below", "between", "among"]

/-- calculateQuestionSimilarity: 1.0 on exact normalized match, else the
word-set Jaccard similarity of the stop-word-free words longer than two
characters (0 when either word set is empty).  The JS Sets are modelled by
deduplicated lists; only their cardinalities enter the ratio. -/
def calculateQuestionSimilarity (q1 q2 : String) : ℚ :=
  let n1 := normalizeQuestion q1
  let n2 := normalizeQuestion q2
  if n1 = n2 then 1
  else
    let words1 := (splitWs n1).filter (fun w => 2 < w.length && !(stopWords.contains w))
    let words2 := (splitWs n2).filter (fun w => 2 < w.length && !(stopWords.contains w))
    if words1.isEmpty || words2.isEmpty then 0
    else
      let set1 := words1.dedup
      let set2 := words2.dedup
      let inter := set1.filter (fun x => set2.contains x)
      let union := (set1 ++ set2).dedup
      (inter.length : ℚ) / (union.length : ℚ)

/-- isQuestionDuplicate: falsy/empty inputs are never duplicates; otherwise
a question is a duplicate iff its similarity to some existing question
reaches the threshold. -/
def isQuestionDuplicate (newQ : String) (existingQs : List String) (threshold : ℚ) : Bool :=
  if newQ = "" ∨ existingQs.isEmpty then false
  else existingQs.any (fun e => threshold ≤ calculateQuestionSimilarity newQ e)

/-- The loop of filterDuplicateQuestions: seen tracks the exact normalized
forms already kept in this batch. -/
def filterDupGo (existingQs : List String) (threshold : ℚ) :
    List String → List String → List String
  | [], _ => []
  | q :: rest, seen =>
    let n := normalizeQuestion q
    if seen.contains n then filterDupGo existingQs threshold rest seen
    else if isQuestionDuplicate q existingQs threshold then
      filterDupGo existingQs threshold rest seen
    else q :: filterDupGo existingQs threshold rest (n :: seen)

/-- filterDuplicateQuestions: within-batch de-duplication is exact-normalized
only; against existingQuestions the similarity threshold applies. -/
def filterDuplicateQuestions (questions existingQs : List String) (threshold : ℚ) :
    List String :=
  if questions.isEmpty then [] else filterDupGo existingQs threshold questions []

/-- A suggested question embedded in the session document (the fields the
de-duplication and visibility logic reads). -/
structure SuggestedQuestion where
  question : String
  answered : Bool
  deleted : Bool
deriving DecidableEq

/-- The visible list: questions with deleted = false. -/
def visibleQuestions (qs : List SuggestedQuestion) : List SuggestedQuestion :=
  qs.filter (fun q => !q.deleted)

/-- The rolling question insertion of the audio-chunk handler: the candidate
batch is filtered against the visible UNANSWERED question texts, new
questions are prepended to the non-deleted tail, and an empty filtered batch
yields no update (generateQuestionSuggestions returns null). -/
def rollingQuestionUpdate (batch : List String) (existing : List SuggestedQuestion) :
    List SuggestedQuestion :=
  let existingTexts :=
    (existing.filter (fun q => !q.deleted && !q.answered)).map (fun q => q.question)
  let filtered := filterDuplicateQuestions batch existingTexts (7 / 10)
  if filtered.isEmpty then existing
  else
    filtered.map (fun t => { question := t, answered := false, deleted := false })
      ++ existing.filter (fun q => !q.deleted)

theorem isQuestionDuplicate_false (q : String) (ex : List String) (θ : ℚ)
    (h : isQuestionDuplicate q ex θ = false) (hq : q ≠ "") :
    ∀ t ∈ ex, calculateQuestionSimilarity q t < θ := by
  intro t ht
  by_contra hc
  push_neg at hc
  have hne : ex ≠ [] := by
    intro hx
    subst hx
    simp at ht
  rw [isQuestionDuplicate] at h
  rw [if_neg (by simp [hq, hne])] at h
  rw [List.any_eq_false] at h
  have := h t ht
  simp only [decide_eq_true_eq] at this
  exact this hc

theorem filterDupGo_mem (ex : List String) (θ : ℚ) :
    ∀ qs seen q, q ∈ filterDupGo ex θ qs seen →
      isQuestionDuplicate q ex θ = false ∧ ¬ (seen.contains (normalizeQuestion q) = true) := by
  intro qs
  induction qs with
  | nil =>
    intro seen q hq
    simp [filterDupGo] at hq
  | cons q0 rest ih =>
    intro seen q hq
    rw [filterDupGo] at hq
    by_cases hseen : seen.contains (normalizeQuestion q0) = true
    · rw [if_pos hseen] at hq
      exact ih seen q hq
    · rw [if_neg hseen] at hq
      by_cases hdup : isQuestionDuplicate q0 ex θ = true
      · rw [if_pos hdup] at hq
        exact ih seen q hq
      · rw [if_neg hdup] at hq
        rcases List.mem_cons.mp hq with rfl | hq'
        · exact ⟨by simpa using hdup, hseen⟩
        · have := ih _ q hq'
          refine ⟨this.1, ?_⟩
          intro hin
          apply this.2
          have hmem : normalizeQuestion q ∈ seen := List.mem_of_elem_eq_true hin
          simp [List.contains_cons]
          exact Or.inr hmem

theorem filterDupGo_nodup (ex : List String) (θ : ℚ) :
    ∀ qs seen, ((filterDupGo ex θ qs seen).map normalizeQuestion).Nodup := by
  intro qs
  induction qs with
  | nil =>
    intro seen
    simp [filterDupGo]
  | cons q0 rest ih =>
    intro seen
    rw [filterDupGo]
    by_cases hseen : seen.contains (normalizeQuestion q0) = true
    · rw [if_pos hseen]
      exact ih seen
    · rw [if_neg hseen]
      by_cases hdup : isQuestionDuplicate q0 ex θ = true
      · rw [if_pos hdup]
        exact ih seen
      · rw [if_neg hdup]
        rw [List.map_cons, List.nodup_cons]
        refine ⟨?_, ih _⟩
        intro hmem
        obtain ⟨q', hq', heq⟩ := List.mem_map.mp hmem
        have := (filterDupGo_mem ex θ rest (normalizeQuestion q0 :: seen) q' hq').2
        exact this (by simp [List.contains_cons, heq])

/-- C7 (amended): after a rolling Suggestion Engine update, every newly
inserted question with non-empty text has similarity below 0.7 to every
question in the comparison set the filter received — the visible UNANSWERED
question texts; within the inserted batch only exact-normalized duplicates
are removed (the inserted questions have pairwise distinct normalizations),
so two distinct inserted questions may still reach similarity 0.7, and
answered-but-visible questions are not compared against at all. -/
theorem claim_C7_dedup_amended (batch : List String) (existing : List SuggestedQuestion) :
    (∀ q ∈ filterDuplicateQuestions batch
        ((existing.filter (fun e => !e.deleted && !e.answered)).map (fun e => e.question))
        (7 / 10),
      q ≠ "" →
      ∀ t ∈ (existing.filter (fun e => !e.deleted && !e.answered)).map (fun e => e.question),
        calculateQuestionSimilarity q t < 7 / 10) ∧
    ((filterDuplicateQuestions batch
        ((existing.filter (fun e => !e.deleted && !e.answered)).map (fun e => e.question))
        (7 / 10)).map normalizeQuestion).Nodup ∧
    (¬ (filterDuplicateQuestions batch
        ((existing.filter (fun e => !e.deleted && !e.answered)).map (fun e => e.question))
        (7 / 10)).isEmpty = true →
      rollingQuestionUpdate batch existing
        = (filterDuplicateQuestions batch
            ((existing.filter (fun e => !e.deleted && !e.answered)).map (fun e => e.question))
            (7 / 10)).map (fun t => { question := t, answered := false, deleted := false })
          ++ existing.filter (fun q => !q.deleted)) := by
  refine ⟨?_, ?_, ?_⟩
  · intro q hq hqne t ht
    rw [filterDuplicateQuestions] at hq
    by_cases hb : batch.isEmpty
    · rw [if_pos hb] at hq
      simp at hq
    · rw [if_neg hb] at hq
      have := (filterDupGo_mem _ _ batch [] q hq).1
      exact isQuestionDuplicate_false q _ _ this hqne t ht
  · rw [filterDuplicateQuestions]
    by_cases hb : batch.isEmpty
    · rw [if_pos hb]
      simp
    · rw [if_neg hb]
      exact filterDupGo_nodup _ _ batch []
  · intro hne
    rw [rollingQuestionUpdate, if_neg hne]

theorem claim_C7_dedup_amended_witness :
    calculateQuestionSimilarity "What is the churn rate?" "How big is the team?" < 7 / 10 ∧
      ((filterDuplicateQuestions ["What is the churn rate?"] ["How big is the team?"]
        (7 / 10)).map normalizeQuestion).Nodup := by
  have h := claim_C7_dedup_amended ["What is the churn rate?"]
    [⟨"How big is the team?", false, false⟩]
  have hex : (([⟨"How big is the team?", false, false⟩] :
      List SuggestedQuestion).filter (fun e => !e.deleted && !e.answered)).map
        (fun e => e.question) = ["How big is the team?"] := rfl
  rw [hex] at h
  have hsim0 : calculateQuestionSimilarity "What is the churn rate?"
      "How big is the team?" = 0 / 4 := by rfl
  have hdup : isQuestionDuplicate "What is the churn rate?" ["How big is the team?"]
      (7 / 10) = false := by
    rw [isQuestionDuplicate, if_neg (by simp)]
    simp only [List.any_cons, List.any_nil, Bool.or_false, hsim0]
    norm_num
  have hmem : "What is the churn rate?" ∈ filterDuplicateQuestions
      ["What is the churn rate?"] ["How big is the team?"] (7 / 10) := by
    have hcomp : filterDuplicateQuestions ["What is the churn rate?"]
        ["How big is the team?"] (7 / 10) = ["What is the churn rate?"] := by
      rw [filterDuplicateQuestions, if_neg (by decide), filterDupGo,
        if_neg (by decide), if_neg (by simp [hdup])]
      rfl
    rw [hcomp]
    exact List.mem_singleton_self _
  exact ⟨h.1 _ hmem (by decide) _ (List.mem_singleton_self _), h.2.1⟩

/-- C7 counterexample: two candidate questions in the same batch that are
not exact-normalized duplicates but have Jaccard similarity 5/7 (at least
0.7) both survive the filter on an empty existing set, so the visible list
after the update contains two distinct questions at similarity 0.7 or more,
refuting the claimed invariant. -/
theorem claim_C7_counterexample :
    (7 : ℚ) / 10 ≤ calculateQuestionSimilarity
      "How does your team handle customer retention today?"
      "How does your team handle customer retention now?" ∧
    (⟨"How does your team handle customer retention today?", false, false⟩ : SuggestedQuestion)
      ∈ visibleQuestions (rollingQuestionUpdate
          ["How does your team handle customer retention today?",
           "How does your team handle customer retention now?"] []) ∧
    (⟨"How does your team handle customer retention now?", false, false⟩ : SuggestedQuestion)
      ∈ visibleQuestions (rollingQuestionUpdate
          ["How does your team handle customer retention today?",
           "How does your team handle customer retention now?"] []) ∧
    ¬ (visibleQuestions (rollingQuestionUpdate
          ["How does your team handle customer retention today?",
           "How does your team handle customer retention now?"] [])).Pairwise
        (fun a b => calculateQuestionSimilarity a.question b.question < 7 / 10) := by
  have hsim : calculateQuestionSimilarity
      "How does your team handle customer retention today?"
      "How does your team handle customer retention now?" = 5 / 7 := by rfl
  have hvis : visibleQuestions (rollingQuestionUpdate
      ["How does your team handle customer retention today?",
       "How does your team handle customer retention now?"] [])
      = [⟨"How does your team handle customer retention today?", false, false⟩,
         ⟨"How does your team handle customer retention now?", false, false⟩] := by rfl
  refine ⟨by rw [hsim]; norm_num, ?_, ?_, ?_⟩
  · rw [hvis]
    exact List.mem_cons_self _ _
  · rw [hvis]
    exact List.mem_cons_of_mem _ (List.mem_singleton_self _)
  · intro hpw
    rw [hvis] at hpw
    obtain ⟨hrel, _⟩ := List.pairwise_cons.mp hpw
    have := hrel _ (List.mem_singleton_self _)
    rw [hsim] at this
    norm_num at this

/-! ### Live-conversation router (the session orchestrator): the stop route,
join-session, audio-chunk and disconnect handlers, and the auto-stop
interval.  Timestamps are epoch milliseconds (Int). -/

inductive SessStatus where
  | ACTIVE
  | ENDED
deriving DecidableEq

/-- The LiveConversation document fields the orchestrator reads and writes.
isActive is the soft-delete flag of the document (distinct from status). -/
structure SessionDoc where
  status : SessStatus
  isActive : Bool
  startedAt : Int
  endedAt : Option Int
  totalDuration : Option Int
deriving DecidableEq

/-- An activeSessions map entry for one session: the socket handle (none
after disconnect), the cumulative audio buffer, the live transcription
connection (none before the first chunk; some b with b the isConnected
flag), the received-chunk counter, the last-audio timestamp driving the
auto-stop check, and whether the auto-stop interval is running. -/
structure ActiveEntry where
  socketId : Option Nat
  audioBuffer : List Nat
  transcriptionConn : Option Bool
  audioChunkCount : Nat
  lastAudioReceived : Int
  autoStopCheckInterval : Bool
  initialQuestionsGenerated : Bool
deriving DecidableEq

/-- The per-session orchestrator state: the persisted document, the
activeSessions entry, the number of processSessionStop runs scheduled via
setImmediate (each scheduled callback executes exactly once), the bytes
forwarded to the live transcriber, and the error codes emitted. -/
structure OrchState where
  doc : Option SessionDoc
  entry : Option ActiveEntry
  finalizationRuns : Nat
  forwarded : List Nat
  errors : List String
deriving DecidableEq

/-- The body of the /:id/stop route response. -/
structure StopResponse where
  endedAt : Int
  totalDuration : Int
deriving DecidableEq

/-- The join-session handler: reject a missing or non-ACTIVE session;
create the entry if absent; otherwise swap in the new socket and reset
lastAudioReceived; then start the auto-stop interval if it is not running
(on an entry with a running interval only lastAudioReceived is touched
again). -/
def joinSession (sid : Nat) (now : Int) (st : OrchState) : OrchState :=
  match st.doc with
  | none => { st with errors := st.errors ++ ["SESSION_NOT_FOUND"] }
  | some d =>
    if d.status ≠ SessStatus.ACTIVE then
      { st with errors := st.errors ++ ["SESSION_INACTIVE"] }
    else
      let entry1 :=
        match st.entry with
        | none =>
          { socketId := some sid
            audioBuffer := []
            transcriptionConn := none
            audioChunkCount := 0
            lastAudioReceived := now
            autoStopCheckInterval := false
            initialQuestionsGenerated := false : ActiveEntry }
        | some e => { e with socketId := some sid, lastAudioReceived := now }
      let entry2 :=
        if entry1.autoStopCheckInterval then { entry1 with lastAudioReceived := now }
        else { entry1 with autoStopCheckInterval := true }
      { st with entry := some entry2 }

/-- The audio-chunk handler: reject when the socket has not joined this
session or the entry is gone; set up the live transcription lazily (a
missing API key emits an error and returns before any append); drop empty
or oversize buffers; forward to the live transcriber only while it is
connected; always append to the cumulative audio buffer, bump the chunk
counter and refresh lastAudioReceived.  The session document's status is
never consulted. -/
def audioChunk (sessionIdMatches : Bool) (apiKeyPresent : Bool) (data : List Nat)
    (now : Int) (st : OrchState) : OrchState :=
  if ¬ sessionIdMatches then { st with errors := st.errors ++ ["INVALID_SESSION"] }
  else
    match st.entry with
    | none => { st with errors := st.errors ++ ["SESSION_NOT_FOUND"] }
    | some e =>
      if e.transcriptionConn = none ∧ ¬ apiKeyPresent then
        { st with errors := st.errors ++ ["OPENAI_API_KEY_MISSING"] }
      else
        let e1 := if e.transcriptionConn = none then
          { e with transcriptionConn := some true } else e
        if data.length = 0 ∨ 1024 * 1024 < data.length then { st with entry := some e1 }
        else
          let fw := if e1.transcriptionConn = some true then st.forwarded ++ data
            else st.forwarded
          { st with
            entry := some { e1 with
              audioBuffer := e1.audioBuffer ++ data
              audioChunkCount := e1.audioChunkCount + 1
              lastAudioReceived := now }
            forwarded := fw }

/-- The disconnect handler: when the entry still references this socket,
null the socket handle and clear the auto-stop interval, keeping all other
entry data; a try/catch swallows the null-socket access, so a stale or
missing entry leaves the state unchanged. -/
def disconnectSocket (sid : Nat) (st : OrchState) : OrchState :=
  match st.entry with
  | none => st
  | some e =>
    match e.socketId with
    | none => st
    | some s =>
      if s = sid then
        { st with entry := some { e with socketId := none, autoStopCheckInterval := false } }
      else st

/-- The /:id/stop route: a missing or soft-deleted session is a 404; there
is no check of status, so a second stop on an ENDED session succeeds again.
The auto-stop interval is cleared, the session is optimistically marked
ENDED with endedAt := now and totalDuration recomputed from now, saved, and
one background processSessionStop run is scheduled unconditionally; the
response snapshots this call's endedAt and totalDuration. -/
def stopRoute (now : Int) (st : OrchState) : OrchState × Option StopResponse :=
  match st.doc with
  | none => (st, none)
  | some d =>
    if d.isActive = false then (st, none)
    else
      let entry1 :=
        match st.entry with
        | some e => some { e with autoStopCheckInterval := false }
        | none => none
      let dur := (now - d.startedAt) / 1000
      let d1 := { d with status := SessStatus.ENDED, endedAt := some now,
                         totalDuration := some dur }
      ({ st with doc := some d1, entry := entry1,
                 finalizationRuns := st.finalizationRuns + 1 },
       some { endedAt := now, totalDuration := dur })

/-- One firing of the 30-second auto-stop interval: if four minutes have
passed since lastAudioReceived, clear the interval, and if the document is
still ACTIVE mark it ENDED, stamping endedAt with now and recomputing
totalDuration, and
schedule one background processSessionStop run. -/
def autoStopFire (now : Int) (st : OrchState) : OrchState :=
  match st.entry with
  | none => st
  | some e =>
    if 4 * 60 * 1000 ≤ now - e.lastAudioReceived then
      let e1 := { e with autoStopCheckInterval := false }
      match st.doc with
      | some d =>
        if d.status = SessStatus.ACTIVE then
          { st with
            entry := some e1
            doc := some { d with status := SessStatus.ENDED, endedAt := some now,
                                 totalDuration := some ((now - d.startedAt) / 1000) }
            finalizationRuns := st.finalizationRuns + 1 }
        else { st with entry := some e1 }
      | none => { st with entry := some e1 }
    else st

/-- A mid-recording entry used as a concrete test state: socket 1 attached,
one 1-byte chunk buffered, live transcription connected, watchdog running. -/
def exampleEntry : ActiveEntry :=
  { socketId := some 1
    audioBuffer := [7]
    transcriptionConn := some true
    audioChunkCount := 1
    lastAudioReceived := 1000
    autoStopCheckInterval := true
    initialQuestionsGenerated := true }

/-- A concrete orchestrator state: an ACTIVE, non-deleted session started at
epoch 0 with the entry above. -/
def exampleState : OrchState :=
  { doc := some { status := SessStatus.ACTIVE, isActive := true, startedAt := 0,
                  endedAt := none, totalDuration := none }
    entry := some exampleEntry
    finalizationRuns := 0
    forwarded := []
    errors := [] }

/-- C1 (amended): every Stop call on an existing non-soft-deleted session —
including a session already ENDED by an earlier Stop — schedules its own
finalization run (N calls yield N runs), overwrites the persisted endedAt
and durationSeconds with values computed at that call's time, and returns
that call's own snapshot; Stop is not idempotent. -/
theorem claim_C1_stop_amended (st : OrchState) (d : SessionDoc) (now : Int)
    (hdoc : st.doc = some d) (hact : d.isActive = true) :
    (stopRoute now st).1.finalizationRuns = st.finalizationRuns + 1 ∧
    (stopRoute now st).2 = some ⟨now, (now - d.startedAt) / 1000⟩ ∧
    (stopRoute now st).1.doc = some { d with status := SessStatus.ENDED, endedAt := some now, totalDuration := some ((now - d.startedAt) / 1000) } := by
  simp [stopRoute, hdoc, hact]

theorem claim_C1_stop_amended_witness :
    (stopRoute 10000 exampleState).1.finalizationRuns = exampleState.finalizationRuns + 1 ∧
      (stopRoute 10000 exampleState).2 = some ⟨10000, (10000 - 0) / 1000⟩ ∧
      (stopRoute 10000 exampleState).1.doc = some { status := SessStatus.ENDED, isActive := true, startedAt := 0, endedAt := some 10000, totalDuration := some ((10000 - 0) / 1000) } :=
  claim_C1_stop_amended exampleState _ 10000 rfl rfl

/-- C1 counterexample: two Stop calls at 10 s and 15 s on the same session
schedule two finalization runs, return different snapshots, and the second
call changes the persisted session again — refuting exactly-one
finalization and identical-snapshot idempotence. -/
theorem claim_C1_counterexample :
    (stopRoute 15000 (stopRoute 10000 exampleState).1).1.finalizationRuns = 2 ∧
    (stopRoute 10000 exampleState).2 = some ⟨10000, 10⟩ ∧
    (stopRoute 15000 (stopRoute 10000 exampleState).1).2 = some ⟨15000, 15⟩ ∧
    (stopRoute 15000 (stopRoute 10000 exampleState).1).2 ≠ (stopRoute 10000 exampleState).2 ∧
    (stopRoute 15000 (stopRoute 10000 exampleState).1).1.doc
      ≠ (stopRoute 10000 exampleState).1.doc := by
  refine ⟨?_, ?_, ?_, ?_, ?_⟩ <;> decide

/-- C2 (amended): an audio-chunk message arriving after stop has set the
session's status to Ended is NOT discarded while the registry entry still
exists: it is appended to the cumulative buffer and, while the live
transcription connection is open, forwarded to it — the handler never reads
the session status.  Chunks are rejected (SESSION_NOT_FOUND, no append, no
forward) only once the entry has been removed by finalization cleanup. -/
theorem claim_C2_audio_after_stop_amended (st : OrchState) (e : ActiveEntry)
    (data : List Nat) (now : Int) (apiKey : Bool)
    (hentry : st.entry = some e) (hconn : e.transcriptionConn = some true)
    (hne : data ≠ []) (hsize : data.length ≤ 1024 * 1024) :
    ((audioChunk true apiKey data now st).entry
        = some { e with audioBuffer := e.audioBuffer ++ data, audioChunkCount := e.audioChunkCount + 1, lastAudioReceived := now } ∧
      (audioChunk true apiKey data now st).forwarded = st.forwarded ++ data ∧
      (audioChunk true apiKey data now st).doc = st.doc) ∧
    (∀ st2 : OrchState, st2.entry = none →
      audioChunk true apiKey data now st2
        = { st2 with errors := st2.errors ++ ["SESSION_NOT_FOUND"] }) := by
  have hlen0 : ¬ (data.length = 0) := by simpa [List.length_eq_zero] using hne
  have hlen1 : ¬ (1024 * 1024 < data.length) := by omega
  constructor
  · refine ⟨?_, ?_, ?_⟩ <;> simp [audioChunk, hentry, hconn, hlen0, hlen1]
  · intro st2 hst2
    simp [audioChunk, hst2]

theorem claim_C2_audio_after_stop_amended_witness :
    ((audioChunk true true [1, 2] 11000 exampleState).entry
        = some { exampleEntry with audioBuffer := [7] ++ [1, 2], audioChunkCount := exampleEntry.audioChunkCount + 1, lastAudioReceived := 11000 } ∧
      (audioChunk true true [1, 2] 11000 exampleState).forwarded
        = exampleState.forwarded ++ [1, 2] ∧
      (audioChunk true true [1, 2] 11000 exampleState).doc = exampleState.doc) ∧
    (∀ st2 : OrchState, st2.entry = none →
      audioChunk true true [1, 2] 11000 st2
        = { st2 with errors := st2.errors ++ ["SESSION_NOT_FOUND"] }) :=
  claim_C2_audio_after_stop_amended exampleState exampleEntry [1, 2] 11000 true
    rfl rfl (by decide) (by decide)

/-- C2 counterexample: after the stop route has persisted status = ENDED,
an audio chunk is still appended to the cumulative buffer and forwarded to
the live transcriber (the registry entry is removed only later, by the
background finalization), refuting the no-append/no-forward claim. -/
theorem claim_C2_counterexample :
    (stopRoute 10000 exampleState).1.doc
      = some { status := SessStatus.ENDED, isActive := true, startedAt := 0, endedAt := some 10000, totalDuration := some 10 } ∧
    (audioChunk true true [1, 2] 11000 (stopRoute 10000 exampleState).1).entry
      = some { exampleEntry with autoStopCheckInterval := false, audioBuffer := [7, 1, 2], audioChunkCount := 2, lastAudioReceived := 11000 } ∧
    (audioChunk true true [1, 2] 11000 (stopRoute 10000 exampleState).1).forwarded
      = [1, 2] ∧
    ¬ ((audioChunk true true [1, 2] 11000 (stopRoute 10000 exampleState).1).entry
        = (stopRoute 10000 exampleState).1.entry) := by
  refine ⟨?_, ?_, ?_, ?_⟩ <;> decide

/-- C3 (amended): a socket disconnect of the attached socket DOES cancel the
session's auto-stop (Watchdog) interval — the entry itself, its buffer and
its sub-tasks survive, and the session document is untouched — and a
subsequent re-attach to the surviving entry restarts the interval. -/
theorem claim_C3_watchdog_amended (st : OrchState) (e : ActiveEntry) (sid : Nat)
    (hentry : st.entry = some e) (hsock : e.socketId = some sid) :
    (disconnectSocket sid st).entry
      = some { e with socketId := none, autoStopCheckInterval := false } ∧
    (disconnectSocket sid st).doc = st.doc ∧
    (disconnectSocket sid st).finalizationRuns = st.finalizationRuns ∧
    (∀ (d : SessionDoc) (sid2 : Nat) (now2 : Int),
      st.doc = some d → d.status = SessStatus.ACTIVE →
      (joinSession sid2 now2 (disconnectSocket sid st)).entry
        = some { e with socketId := some sid2, lastAudioReceived := now2, autoStopCheckInterval := true }) := by
  have hdisc : disconnectSocket sid st
      = { st with entry := some { e with socketId := none, autoStopCheckInterval := false } } := by
    simp [disconnectSocket, hentry, hsock]
  refine ⟨by rw [hdisc], by rw [hdisc], by rw [hdisc], ?_⟩
  intro d sid2 now2 hdoc hstat
  rw [hdisc]
  simp [joinSession, hdoc, hstat]

theorem claim_C3_watchdog_amended_witness :
    (disconnectSocket 1 exampleState).entry
      = some { exampleEntry with socketId := none, autoStopCheckInterval := false } ∧
    (disconnectSocket 1 exampleState).doc = exampleState.doc ∧
    (disconnectSocket 1 exampleState).finalizationRuns = exampleState.finalizationRuns ∧
    (∀ (d : SessionDoc) (sid2 : Nat) (now2 : Int),
      exampleState.doc = some d → d.status = SessStatus.ACTIVE →
      (joinSession sid2 now2 (disconnectSocket 1 exampleState)).entry
        = some { exampleEntry with socketId := some sid2, lastAudioReceived := now2, autoStopCheckInterval := true }) :=
  claim_C3_watchdog_amended exampleState exampleEntry 1 rfl rfl

/-- C3 counterexample: with the Watchdog interval running, a disconnect of
the attached socket clears it (no stop and no auto-stop occurred), and a
re-attach starts a fresh interval — refuting both that disconnect never
cancels the Watchdog and that re-attach never restarts it. -/
theorem claim_C3_counterexample :
    (exampleState.entry.map (fun e => e.autoStopCheckInterval)) = some true ∧
    ((disconnectSocket 1 exampleState).entry.map (fun e => e.autoStopCheckInterval))
      = some false ∧
    (disconnectSocket 1 exampleState).finalizationRuns = 0 ∧
    ((joinSession 2 20000 (disconnectSocket 1 exampleState)).entry.map
      (fun e => e.autoStopCheckInterval)) = some true := by
  refine ⟨rfl, ?_, ?_, ?_⟩ <;> decide

/-- C8 (amended): re-attaching (join-session) to an existing registry entry
preserves the cumulative audio buffer, the received-chunk count and the
live transcription connection handle, and replaces the socket handle — but
it RESETS lastAudioReceived to the attach time (and ensures the auto-stop
interval is running). -/
theorem claim_C8_reattach_amended (st : OrchState) (e : ActiveEntry) (d : SessionDoc)
    (sid : Nat) (now : Int) (hdoc : st.doc = some d)
    (hstat : d.status = SessStatus.ACTIVE) (hentry : st.entry = some e) :
    (joinSession sid now st).entry
      = some { e with socketId := some sid, lastAudioReceived := now, autoStopCheckInterval := true } ∧
    ((joinSession sid now st).entry.map (fun x => x.audioBuffer)) = some e.audioBuffer ∧
    ((joinSession sid now st).entry.map (fun x => x.audioChunkCount))
      = some e.audioChunkCount ∧
    ((joinSession sid now st).entry.map (fun x => x.transcriptionConn))
      = some e.transcriptionConn ∧
    ((joinSession sid now st).entry.map (fun x => x.lastAudioReceived)) = some now ∧
    (joinSession sid now st).doc = st.doc := by
  have hj : (joinSession sid now st)
      = { st with entry := some { e with socketId := some sid, lastAudioReceived := now, autoStopCheckInterval := true } } := by
    rcases e with ⟨sock, buf, conn, cnt, last, intv, initq⟩
    rcases intv <;> simp [joinSession, hdoc, hstat, hentry]
  rw [hj]
  exact ⟨rfl, rfl, rfl, rfl, rfl, rfl⟩

theorem claim_C8_reattach_amended_witness :
    (joinSession 2 5000 exampleState).entry
      = some { exampleEntry with socketId := some 2, lastAudioReceived := 5000, autoStopCheckInterval := true } ∧
    ((joinSession 2 5000 exampleState).entry.map (fun x => x.audioBuffer))
      = some exampleEntry.audioBuffer ∧
    ((joinSession 2 5000 exampleState).entry.map (fun x => x.audioChunkCount))
      = some exampleEntry.audioChunkCount ∧
    ((joinSession 2 5000 exampleState).entry.map (fun x => x.transcriptionConn))
      = some exampleEntry.transcriptionConn ∧
    ((joinSession 2 5000 exampleState).entry.map (fun x => x.lastAudioReceived))
      = some 5000 ∧
    (joinSession 2 5000 exampleState).doc = exampleState.doc :=
  claim_C8_reattach_amended exampleState exampleEntry _ 2 5000 rfl rfl rfl

/-- C8 counterexample: the entry's lastAudioReceived is 1000 before the
second attach and 5000 (the attach time) afterwards — the re-attach does
not preserve the last-audio timestamp, refuting that only the socket handle
changes. -/
theorem claim_C8_counterexample :
    (exampleState.entry.map (fun e => e.lastAudioReceived)) = some 1000 ∧
    ((joinSession 2 5000 exampleState).entry.map (fun e => e.lastAudioReceived))
      = some 5000 ∧
    ¬ ((joinSession 2 5000 exampleState).entry.map (fun e => e.lastAudioReceived)
        = exampleState.entry.map (fun e => e.lastAudioReceived)) := by
  refine ⟨rfl, ?_, ?_⟩ <;> decide

/-! ### processSessionStop: persistence of full-audio transcription segments -/

/-- The ConversationTranscript fields the segment-persistence step writes
(speaker parsing is omitted; the claim is about timestamp and isFinal).
Timestamps are epoch milliseconds as exact rationals. -/
structure TranscriptDoc where
  text : String
  timestampMs : ℚ
  isFinal : Bool
deriving DecidableEq

/-- Models the per-segment transcript persistence of processSessionStop:
each segment becomes a transcript with isFinal = true and timestamp
new Date(startedAt.getTime() + segment.start * 1000) — but the JS guard
segment.start ? ... : new Date() is a truthiness test, so a segment whose
start offset is exactly 0 falls into the fallback and is stamped with the
current wall-clock time nowMs instead. -/
def persistSegment (startedAtMs nowMs : ℚ) (s : Segment) : TranscriptDoc :=
  { text := s.text
    timestampMs := if s.start ≠ 0 then startedAtMs + s.start * 1000 else nowMs
    isFinal := true }

/-- All segments of a full-audio transcription, persisted in order. -/
def persistSegments (startedAtMs nowMs : ℚ) (segs : List Segment) : List TranscriptDoc :=
  segs.map (persistSegment startedAtMs nowMs)

/-- C9: the code evaluated at the failing input.  A segment with start
offset 0 (the usual first diarized segment) is persisted with isFinal =
true but with timestamp equal to the finalization wall-clock time (99999
here), not startedAt + 0 as the claim states; a segment with non-zero start
does get startedAt + start * 1000. -/
theorem claim_C9_zero_start_timestamp :
    (persistSegment 0 99999 ⟨0, 2, "hello", none⟩).isFinal = true ∧
    (persistSegment 0 99999 ⟨0, 2, "hello", none⟩).timestampMs = 99999 ∧
    ¬ ((persistSegment 0 99999 ⟨0, 2, "hello", none⟩).timestampMs = 0 + 0 * 1000) ∧
    (persistSegment 0 99999 ⟨2, 4, "world", none⟩).timestampMs = 0 + 2 * 1000 ∧
    persistSegments 0 99999 [⟨0, 2, "hello", none⟩, ⟨2, 4, "world", none⟩]
      = [⟨"hello", 99999, true⟩, ⟨"world", 2000, true⟩] := by
  refine ⟨rfl, ?_, ?_, ?_, ?_⟩ <;> norm_num [persistSegment, persistSegments]

end VCA
